import Mathlib

/-!
# Verification of the docktor release-channel scripts

Shallow embedding of the release tooling of `apotenza92/docktor`:

* `scripts/release/update_sparkle_appcasts.py`
* `scripts/release/update_homebrew_tap_casks.py`
* `scripts/release_notes_from_changelog.py`

Python strings are modeled as Lean `String`s / `List Char` (a Python `str`
is a sequence of code points, compared pointwise by code point, which is
exactly the lexicographic order on `List Char`).  Regular-expression
matching in `parse_tag` is unfolded into explicit maximal-munch scanning,
including the Python `$` anchor's acceptance of a single trailing newline;
the digit class of the `\d` escape (all Unicode decimal digits, a table of
the interpreter's Unicode database) is a collaborator parameter, with the
ASCII digits as its familiar instance.  Byte strings are modeled as
`List Nat`; file-system and network effects of the signing helper are made
explicit as state passed through `sign_asset`.
-/

namespace Docktor

/-! ## Python string primitives -/

/-- Decimal value of a digit list, as computed by Python `int(...)`. -/
def natOfDigits (l : List Char) : Nat :=
  l.foldl (fun acc c => acc * 10 + (c.toNat - 48)) 0

/-- Python `str.lower()` restricted to the ASCII range used by tag
identifiers (the tag regexes only admit `[0-9A-Za-z.-]`). -/
def asciiLower (l : List Char) : List Char :=
  l.map Char.toLower

/-- Whitespace stripped by Python `str.strip()` (ASCII). -/
def isPySpace (c : Char) : Bool :=
  c == ' ' || c == '\t' || c == '\n' || c == '\r' || c == '\x0b' || c == '\x0c'

/-- `str.strip()` on a character list. -/
def pyStripChars (l : List Char) : List Char :=
  ((l.dropWhile isPySpace).reverse.dropWhile isPySpace).reverse

/-- Python `str.strip()`. -/
def pyStrip (s : String) : String :=
  String.mk (pyStripChars s.data)

/-- Python `str.isdigit()` for the ASCII strings produced by the tag
regexes: non-empty and all decimal digits. -/
def isAllDigits (l : List Char) : Bool :=
  !l.isEmpty && l.all Char.isDigit

/-- The character class `[0-9A-Za-z.-]` of the prerelease identifier in
`PRERELEASE_TAG_RE`. -/
def isIdentChar (c : Char) : Bool :=
  c.isDigit || ('A' ≤ c && c ≤ 'Z') || ('a' ≤ c && c ≤ 'z') || c == '.' || c == '-'

/-! ## `ParsedTag` and `parse_tag`

Both release scripts define identical `ParsedTag` dataclasses, regexes
`STABLE_TAG_RE = ^v(\d+)\.(\d+)\.(\d+)$` and
`PRERELEASE_TAG_RE = ^v(\d+)\.(\d+)\.(\d+)-([0-9A-Za-z.-]+)$`, and
`parse_tag` functions. -/

/-- `ParsedTag` dataclass: `major`, `minor`, `patch`, optional
`prerelease` identifier. -/
structure ParsedTag where
  major : Nat
  minor : Nat
  patch : Nat
  prerelease : Option String
deriving DecidableEq, Repr

/-- Python `int(...)` over a scanned digit group: each digit contributes
its decimal value (`int` accepts every Unicode decimal digit, so the
per-character value function is supplied alongside the digit class). -/
def natOfVal (digitVal : Char → Nat) (l : List Char) : Nat :=
  l.foldl (fun acc c => acc * 10 + digitVal c) 0

/-- `parse_tag`: match the stable regex, then the prerelease regex, else
reject.  The regexes are unfolded into maximal-munch scanning (greedy
`\d+` / `[0-9A-Za-z.-]+` followed by a literal can never backtrack
usefully, because the literal that follows each group is outside the
group's character class).  Python's `$` matches at the end of the string
or immediately before a terminal newline, hence the `['\n']` cases.

The escape `\d` in a Python `str` pattern matches every Unicode decimal
digit (category `Nd`), not only ASCII; which characters those are is
data of the interpreter's Unicode database, so the digit class `digit`
and the decimal value `digitVal` each digit carries in `int(...)` are
collaborator parameters (like the base64 decoder of the Signer).  The
ASCII instance is `Char.isDigit` with value `c.toNat - 48`; the facts
the theorems assume of the class — it contains no `.`, `-`, or newline —
hold of the full `Nd` class as well.  The identifier class
`[0-9A-Za-z.-]` is spelled with explicit ASCII ranges in the regex, so
`isIdentChar` is exact. -/
def parse_tag (digit : Char → Bool) (digitVal : Char → Nat)
    (tag : String) : Option ParsedTag :=
  match tag.data with
  | [] => none
  | c0 :: cs =>
    if c0 = 'v' then
      let d1 := cs.takeWhile digit
      match cs.dropWhile digit with
      | [] => none
      | sep1 :: cs2 =>
        if sep1 = '.' then
          let d2 := cs2.takeWhile digit
          match cs2.dropWhile digit with
          | [] => none
          | sep2 :: cs3 =>
            if sep2 = '.' then
              let d3 := cs3.takeWhile digit
              if d1.isEmpty || d2.isEmpty || d3.isEmpty then none
              else
                match cs3.dropWhile digit with
                | [] =>
                  some ⟨natOfVal digitVal d1, natOfVal digitVal d2,
                    natOfVal digitVal d3, none⟩
                | e :: erest =>
                  if e = '\n' ∧ erest = [] then
                    some ⟨natOfVal digitVal d1, natOfVal digitVal d2,
                      natOfVal digitVal d3, none⟩
                  else if e = '-' then
                    let ident := erest.takeWhile isIdentChar
                    let rest := erest.dropWhile isIdentChar
                    if ident.isEmpty then none
                    else if rest = [] ∨ rest = ['\n'] then
                      some ⟨natOfVal digitVal d1, natOfVal digitVal d2,
                        natOfVal digitVal d3, some (String.mk ident)⟩
                    else none
                  else none
            else none
        else none
    else none

/-! ## `prerelease_key` and `version_key`

The Python sort key of a prerelease identifier is a tuple of pairs
`(0, int)` for all-digit segments and `(1, lowercased-text)` for other
segments; pairs of that shape are ordered exactly like the lexicographic
sum `Nat ⊕ₗ List Char` (every `(0, _)` is below every `(1, _)`, and equal
first components compare the second).  Python tuples compare
lexicographically, which is `Prod.Lex` / `List.Lex`. -/

/-- One token of `prerelease_key`: `(0, int(part))` or `(1, part.lower())`. -/
abbrev Tok : Type := Nat ⊕ₗ List Char

/-- Token of one identifier segment, per the loop body of `prerelease_key`. -/
def segTok (part : List Char) : Tok :=
  if isAllDigits part then toLex (Sum.inl (natOfDigits part))
  else toLex (Sum.inr (asciiLower part))

/-- `re.split(r"[.-]", s)`: split on every single `.` or `-`, keeping
empty segments. -/
def splitSeps : List Char → List (List Char)
  | [] => [[]]
  | c :: rest =>
    if c == '.' || c == '-' then [] :: splitSeps rest
    else
      match splitSeps rest with
      | s :: ss => (c :: s) :: ss
      | [] => [[c]]

/-- `prerelease_key`: tokenize the identifier segment-wise. -/
def prerelease_key (prerelease : String) : List Tok :=
  (splitSeps prerelease.data).map segTok

/-- The composite sort-key type of `version_key`; lexicographic tuple
order as in Python. -/
abbrev VKey : Type := Lex (Nat × Lex (Nat × Lex (Nat × Lex (Nat × List Tok))))

/-- `version_key`: `(major, minor, patch, is_stable, suffix)` with
`is_stable = 1` exactly for stable versions and the empty suffix for
stable versions. -/
def version_key (parsed : ParsedTag) : VKey :=
  toLex (parsed.major, toLex (parsed.minor, toLex (parsed.patch,
    toLex ((if parsed.prerelease.isNone then 1 else 0),
      (match parsed.prerelease with
       | none => ([] : List Tok)
       | some pre => prerelease_key pre)))))

/-- Strict comparison of two parsed versions, as used via Python `<`, `>`
on the tuples returned by `version_key`. -/
def versionLt (a b : ParsedTag) : Prop :=
  version_key a < version_key b

instance (a b : ParsedTag) : Decidable (versionLt a b) := by
  unfold versionLt; infer_instance

/-! ## Releases and channel resolution

`Release` carries the fields shared by the two scripts' dataclasses that
participate in channel resolution (the Sparkle script additionally stores
`html_url` and `published_at`, the Homebrew script per-asset digests;
neither is consulted when choosing channels). -/

/-- `ReleaseAsset` dataclass of `update_sparkle_appcasts.py`. -/
structure ReleaseAsset where
  name : String
  size : Nat
  download_url : String
deriving DecidableEq, Repr

/-- `Release` dataclass (channel-resolution fields). -/
structure Release where
  tag_name : String
  draft : Bool
  prerelease_flag : Bool
  assets : List ReleaseAsset
  parsed : ParsedTag
deriving DecidableEq, Repr

/-- `pick_latest`: Python `max(releases, key=lambda r: version_key(r.parsed))`,
which keeps the first element among key-ties and replaces the running
maximum only on a strictly greater key. -/
def pick_latest (releases : List Release) : Option Release :=
  match releases with
  | [] => none
  | r :: rest =>
    some (rest.foldl
      (fun acc x => if versionLt acc.parsed x.parsed then x else acc) r)

/-- `[release for release in releases if release.parsed.prerelease is None]`
fed to `pick_latest` (both scripts' `main`). -/
def latest_stable (releases : List Release) : Option Release :=
  pick_latest (releases.filter fun r => r.parsed.prerelease.isNone)

/-- `[release for release in releases if release.parsed.prerelease is not None]`
fed to `pick_latest` (both scripts' `main`). -/
def latest_prerelease (releases : List Release) : Option Release :=
  pick_latest (releases.filter fun r => r.parsed.prerelease.isSome)

/-- Outcome of the channel-resolution part of a run: no releases at all,
a raised `RuntimeError`, or a stable-channel selection (possibly absent)
together with the beta-channel selection. -/
inductive ChannelOutcome where
  | noReleases : ChannelOutcome
  | fatal (message : String) : ChannelOutcome
  | channels (stable : Option Release) (beta : Release) : ChannelOutcome
deriving DecidableEq, Repr

/-- Channel resolution of `update_sparkle_appcasts.py` `main` (operating
on the draft-filtered output of `fetch_releases`): returns early when no
release parsed, raises when no stable release exists, and otherwise tracks
the prerelease on the beta channel exactly when its key is strictly
greater than the stable key. -/
def sparkle_channels (releases : List Release) : ChannelOutcome :=
  match latest_stable releases, latest_prerelease releases with
  | none, none => ChannelOutcome.noReleases
  | none, some _ =>
    ChannelOutcome.fatal
      "At least one stable release is required for stable appcast generation"
  | some stable, none => ChannelOutcome.channels (some stable) stable
  | some stable, some prerelease =>
    ChannelOutcome.channels (some stable)
      (if versionLt stable.parsed prerelease.parsed then prerelease else stable)

/-- Channel resolution of `update_homebrew_tap_casks.py` `main`: the beta
cask tracks the stable release when `stable_key >= prerelease_key_value`,
otherwise the prerelease; with only one of the two present it tracks that
one (`stable or prerelease`), and the stable cask is reported unchanged
when no stable release exists. -/
def homebrew_channels (releases : List Release) : ChannelOutcome :=
  match latest_stable releases, latest_prerelease releases with
  | none, none => ChannelOutcome.noReleases
  | some stable, some prerelease =>
    ChannelOutcome.channels (some stable)
      (if version_key stable.parsed ≥ version_key prerelease.parsed then stable
       else prerelease)
  | some stable, none => ChannelOutcome.channels (some stable) stable
  | none, some prerelease => ChannelOutcome.channels none prerelease

/-! ## Changelog extraction

`extract_notes` appears identically in `scripts/release_notes_from_changelog.py`
and `update_sparkle_appcasts.py`.  The changelog document is consumed as
its list of lines (the scripts call `read_text().splitlines()`; file
existence is a collaborator concern). -/

/-- The `for i, line in enumerate(lines): ... break` search: index of the
first line satisfying the predicate. -/
def find_index (p : String → Bool) : List String → Option Nat
  | [] => none
  | x :: xs => if p x then some 0 else (find_index p xs).map (· + 1)

/-- Python `"\n".join(lines)`, at the character level. -/
def joinNL : List String → List Char
  | [] => []
  | [s] => s.data
  | s :: rest => s.data ++ '\n' :: joinNL rest

/-- Python `line.startswith(prefixStr)`. -/
def py_startswith (line prefixStr : String) : Bool :=
  prefixStr.data.isPrefixOf line.data

/-- The heading text `## [<tag>]` searched for. -/
def heading_of (tag : String) : String :=
  "## [" ++ tag ++ "]"

/-- `"\n".join(lines[start:end]).strip()` where `end` is the first index
`≥ start` whose line starts with `## [`, or the document length. -/
def section_text (lines : List String) (start : Nat) : String :=
  let stop :=
    match find_index (fun l => py_startswith l "## [") (lines.drop start) with
    | some k => start + k
    | none => lines.length
  String.mk (pyStripChars (joinNL ((lines.drop start).take (stop - start))))

/-- `extract_notes` on the document's lines: `none` models the
`RuntimeError` raised when no heading line strips to `## [<tag>]`;
otherwise the section below the heading is returned, with the
`- Maintenance release.` placeholder substituted when it strips to
empty. -/
def extract_notes (lines : List String) (tag : String) : Option String :=
  match find_index (fun l => pyStrip l == heading_of tag) lines with
  | none => none
  | some i =>
    let s := section_text lines (i + 1)
    some (if s == "" then "- Maintenance release." else s)

/-! ## Signing: `load_signing_key`, the `main` key gate, and `sign_asset`

Byte strings are `List Nat`.  Base64 decoding, HTTP download and the
Ed25519 signature primitive are collaborator oracles passed as
functions. -/

/-- `load_signing_key`: `none` secret or whitespace-only secret means no
key; a decoded 32-byte seed is used as is; of a decoded 64-byte blob only
the first 32 bytes are used; any other decoded length raises.  The `ok`
payload is the seed handed to `Ed25519PrivateKey.from_private_bytes`. -/
def load_signing_key (signing_secret : Option String)
    (b64decode : String → List Nat) : Except String (Option (List Nat)) :=
  match signing_secret with
  | none => Except.ok none
  | some secret =>
    let normalized := pyStrip secret
    if normalized = "" then Except.ok none
    else
      let decoded := b64decode normalized
      if decoded.length = 32 then Except.ok (some decoded)
      else if decoded.length = 64 then Except.ok (some (decoded.take 32))
      else
        Except.error
          "Unsupported Sparkle private key format. Expected base64-encoded 32-byte seed."

/-- The signing-key gate of `update_sparkle_appcasts.py` `main` (lines
350–355): load the key, then raise when signatures are required but no
key is configured.  It runs before `fetch_releases`, so it is a function
of the configuration alone — no release data or network response is among
its inputs. -/
def signing_gate (signing_secret : Option String)
    (b64decode : String → List Nat) (require_signatures : Bool) :
    Except String (Option (List Nat)) :=
  match load_signing_key signing_secret b64decode with
  | Except.error e => Except.error e
  | Except.ok none =>
    if require_signatures then
      Except.error
        "Missing Sparkle private key. Set SPARKLE_PRIVATE_ED_KEY or --sparkle-private-key."
    else Except.ok none
  | Except.ok (some key) => Except.ok (some key)

/-- State of the signing cache directory and the effect log of one run:
the files present in `cache_dir` (name to content), the download
locations fetched, and the payloads passed to `private_key.sign`. -/
structure SignState where
  cacheFiles : List (String × List Nat)
  downloadLog : List String
  signLog : List (List Nat)
deriving DecidableEq, Repr

/-- Content of the file `cache_dir / name`, if it exists. -/
def fsRead (files : List (String × List Nat)) (name : String) :
    Option (List Nat) :=
  match files with
  | [] => none
  | (m, c) :: rest => if m == name then some c else fsRead rest name

/-- Write (create or overwrite) the file `cache_dir / name`. -/
def fsWrite (files : List (String × List Nat)) (name : String)
    (content : List Nat) : List (String × List Nat) :=
  match files with
  | [] => [(name, content)]
  | (m, c) :: rest =>
    if m == name then (name, content) :: rest
    else (m, c) :: fsWrite rest name content

/-- `download_asset`: fetch the asset's download location and write the
bytes to `cache_dir / asset.name`. -/
def download_asset (fetch : String → List Nat) (asset : ReleaseAsset)
    (st : SignState) : SignState :=
  { st with
    cacheFiles := fsWrite st.cacheFiles asset.name (fetch asset.download_url),
    downloadLog := st.downloadLog ++ [asset.download_url] }

/-- `sign_asset`: download unless `cache_dir / asset.name` already exists
with `asset.size` bytes, then read the file back and sign it.  The
returned string models `base64.b64encode(private_key.sign(payload))`; the
`getD []` default is unreachable because the file exists in both branches
of the download decision. -/
def sign_asset (fetch : String → List Nat) (edSign : List Nat → String)
    (asset : ReleaseAsset) (st : SignState) : String × SignState :=
  let st1 :=
    match fsRead st.cacheFiles asset.name with
    | some bytes =>
      if bytes.length = asset.size then st else download_asset fetch asset st
    | none => download_asset fetch asset st
  let payload := (fsRead st1.cacheFiles asset.name).getD []
  (edSign payload, { st1 with signLog := st1.signLog ++ [payload] })

/-! ## Definitions taken from the specification's words

These are *not* translations of the source; they restate what the
specification (and the claims derived from it) says, so that the source
embedding can be compared against them. -/

/-- Spec form: a non-empty all-digit version component, over the given
digit class (the program's `\d`, of which `Char.isDigit` is the ASCII
part). -/
def DigitsSeg (digit : Char → Bool) (l : List Char) : Prop :=
  l ≠ [] ∧ ∀ c ∈ l, digit c = true

/-- Spec form: `v<major>.<minor>.<patch>` with all-digit components. -/
def IsStableForm (digit : Char → Bool) (l : List Char) : Prop :=
  ∃ a b c : List Char,
    DigitsSeg digit a ∧ DigitsSeg digit b ∧ DigitsSeg digit c ∧
    l = 'v' :: (a ++ '.' :: (b ++ '.' :: c))

/-- Spec form: the stable form followed by `-` and an identifier of at
least one character drawn from ASCII letters, digits, dots and hyphens. -/
def IsPrereleaseForm (digit : Char → Bool) (l : List Char) : Prop :=
  ∃ a b c ident : List Char,
    DigitsSeg digit a ∧ DigitsSeg digit b ∧ DigitsSeg digit c ∧
    ident ≠ [] ∧ (∀ ch ∈ ident, isIdentChar ch) ∧
    l = 'v' :: (a ++ '.' :: (b ++ '.' :: (c ++ '-' :: ident)))

/-- Changelog extraction as the specification words it (amended): locate
the first line that strips to `## [<tag>]`, take the lines strictly
between it and the next line beginning with `## [` (or the end), join
them and strip surrounding whitespace, substituting the placeholder for
an empty result. -/
def notes_spec (lines : List String) (tag : String) : Option String :=
  if lines.all (fun l => !(pyStrip l == heading_of tag)) then none
  else
    let body :=
      ((lines.dropWhile (fun l => !(pyStrip l == heading_of tag))).tail).takeWhile
        (fun l => !(py_startswith l "## ["))
    let text := String.mk (pyStripChars (joinNL body))
    some (if text == "" then "- Maintenance release." else text)

/-- A line that is blank after stripping. -/
def isBlankLine (l : String) : Bool :=
  pyStrip l == ""

/-- Changelog extraction exactly as claim C7 words it: the lines between
the heading and the next section, trimmed of leading and trailing *blank
lines* only, joined with newlines. -/
def notes_claim_C7 (lines : List String) (tag : String) : Option String :=
  if lines.all (fun l => !(pyStrip l == heading_of tag)) then none
  else
    let body :=
      ((lines.dropWhile (fun l => !(pyStrip l == heading_of tag))).tail).takeWhile
        (fun l => !(py_startswith l "## ["))
    let trimmed := ((body.dropWhile isBlankLine).reverse.dropWhile isBlankLine).reverse
    some (String.mk (joinNL trimmed))

/-! ## Example releases used by the channel-resolution scenarios -/

/-- Stable release `v2.0.0`. -/
def rel_v200 : Release := ⟨"v2.0.0", false, false, [], ⟨2, 0, 0, none⟩⟩

/-- Prerelease `v1.5.0-beta.3`. -/
def rel_v150b3 : Release :=
  ⟨"v1.5.0-beta.3", false, true, [], ⟨1, 5, 0, some "beta.3"⟩⟩

/-- Stable release `v1.0.0`. -/
def rel_v100 : Release := ⟨"v1.0.0", false, false, [], ⟨1, 0, 0, none⟩⟩

/-- Prerelease `v1.1.0-beta.1`. -/
def rel_v110b1 : Release :=
  ⟨"v1.1.0-beta.1", false, true, [], ⟨1, 1, 0, some "beta.1"⟩⟩

/-- Prerelease `v2.0.0-rc.1`. -/
def rel_v200rc1 : Release :=
  ⟨"v2.0.0-rc.1", false, true, [], ⟨2, 0, 0, some "rc.1"⟩⟩

/-- The claims' example changelog document
`## [v1.0.0]\n- A\n- B\n## [v0.9.0]\n- C`, as its list of lines. -/
def exampleChangelog : List String :=
  ["## [v1.0.0]", "- A", "- B", "## [v0.9.0]", "- C"]

/-! ## Order lemmas for the composite sort key -/

/-- Lexicographic pairs with equal first component compare by the
second. -/
theorem lex_cons_lt_iff {β : Type} [LinearOrder β] (a : Nat) (x y : β) :
    (toLex (a, x) : Lex (Nat × β)) < toLex (a, y) ↔ x < y := by
  rw [Prod.Lex.lt_iff]
  simp

/-- For an equal numeric triple, a prerelease version keys strictly below
the stable version. -/
theorem versionLt_pre_stable (m n p : Nat) (s : String) :
    versionLt ⟨m, n, p, some s⟩ ⟨m, n, p, none⟩ := by
  unfold versionLt version_key
  dsimp only
  rw [lex_cons_lt_iff, lex_cons_lt_iff, lex_cons_lt_iff, Prod.Lex.lt_iff]
  exact Or.inl Nat.zero_lt_one

/-- For an equal numeric triple, two prereleases compare by their
segment keys. -/
theorem versionLt_pre_pre (m n p : Nat) (s t : String) :
    versionLt ⟨m, n, p, some s⟩ ⟨m, n, p, some t⟩ ↔
      prerelease_key s < prerelease_key t := by
  unfold versionLt version_key
  simp only [Option.isNone_some, Bool.false_eq_true, if_false]
  rw [lex_cons_lt_iff, lex_cons_lt_iff, lex_cons_lt_iff, lex_cons_lt_iff]

/-- Equal-head token lists compare by their tails. -/
theorem tokList_cons_lt_iff (a : Tok) (as bs : List Tok) :
    (a :: as : List Tok) < a :: bs ↔ as < bs :=
  List.Lex.cons_iff

/-- A strictly smaller head decides the token-list comparison. -/
theorem tokList_head_lt (a b : Tok) (as bs : List Tok) (h : a < b) :
    (a :: as : List Tok) < b :: bs :=
  List.Lex.rel h

/-- A proper prefix sorts before any of its extensions. -/
theorem tokList_prefix_lt (as : List Tok) (b : Tok) (bs : List Tok) :
    (as : List Tok) < as ++ b :: bs := by
  induction as with
  | nil => exact List.nil_lt_cons b bs
  | cons a tail ih =>
    rw [List.cons_append]
    exact (tokList_cons_lt_iff a tail (tail ++ b :: bs)).mpr ih

/-- The running maximum of `pick_latest`'s fold is one of the candidates. -/
theorem pick_latest_fold_mem (l : List Release) :
    ∀ a : Release,
      l.foldl (fun acc x => if versionLt acc.parsed x.parsed then x else acc) a ∈
        a :: l := by
  induction l with
  | nil => intro a; simp
  | cons x xs ih =>
    intro a
    simp only [List.foldl_cons]
    by_cases h : versionLt a.parsed x.parsed
    · rw [if_pos h]
      exact List.mem_cons_of_mem a (ih x)
    · rw [if_neg h]
      rcases List.mem_cons.mp (ih a) with h' | h'
      · rw [h']
        exact List.mem_cons_self _ _
      · exact List.mem_cons_of_mem _ (List.mem_cons_of_mem _ h')

/-- `pick_latest` returns an element of its input list. -/
theorem pick_latest_mem {rs : List Release} {r : Release}
    (h : pick_latest rs = some r) : r ∈ rs := by
  match rs with
  | [] => exact absurd h (by simp [pick_latest])
  | x :: rest =>
    have := pick_latest_fold_mem rest x
    unfold pick_latest at h
    have hr := Option.some.inj h
    rw [hr] at this
    rcases List.mem_cons.mp this with h' | h'
    · exact h' ▸ List.mem_cons_self _ _
    · exact List.mem_cons_of_mem _ h'

/-- The stable-channel candidate has no prerelease component. -/
theorem latest_stable_is_stable {rs : List Release} {s : Release}
    (h : latest_stable rs = some s) : s.parsed.prerelease = none := by
  have hm := pick_latest_mem h
  have := (List.mem_filter.mp hm).2
  exact Option.isNone_iff_eq_none.mp this

/-- The beta-channel prerelease candidate has a prerelease component. -/
theorem latest_prerelease_is_pre {rs : List Release} {p : Release}
    (h : latest_prerelease rs = some p) : p.parsed.prerelease ≠ none := by
  have hm := pick_latest_mem h
  have := (List.mem_filter.mp hm).2
  intro hn
  rw [hn] at this
  exact absurd this (by simp)

/-! ## Claim theorems -/

/-- C4 (amended): the comparator induced by `version_key` is transitive,
and on any two `ParsedTag`s with distinct sort keys exactly one of
`a < b`, `b < a` holds.  It is not a strict total order on `ParsedTag`
itself: distinct tags can share a key (see the counterexample). -/
theorem comparator_total_order_on_keys :
    (∀ a b c : ParsedTag, versionLt a b → versionLt b c → versionLt a c) ∧
    (∀ a b : ParsedTag, version_key a ≠ version_key b →
      (versionLt a b ∨ versionLt b a) ∧ ¬(versionLt a b ∧ versionLt b a)) :=
  ⟨fun _ _ _ h1 h2 => lt_trans h1 h2,
   fun _ _ h =>
    ⟨lt_or_gt_of_ne h, fun hb => absurd (lt_trans hb.1 hb.2) (lt_irrefl _)⟩⟩

/-- Witness for C4 at concrete versions. -/
theorem comparator_total_order_on_keys_witness :
    (versionLt ⟨1, 0, 0, some "alpha"⟩ ⟨1, 0, 0, some "beta"⟩ →
      versionLt ⟨1, 0, 0, some "beta"⟩ ⟨1, 0, 0, none⟩ →
      versionLt ⟨1, 0, 0, some "alpha"⟩ ⟨1, 0, 0, none⟩) ∧
    ((versionLt ⟨1, 0, 0, some "rc.1"⟩ ⟨1, 0, 0, none⟩ ∨
      versionLt ⟨1, 0, 0, none⟩ ⟨1, 0, 0, some "rc.1"⟩) ∧
     ¬(versionLt ⟨1, 0, 0, some "rc.1"⟩ ⟨1, 0, 0, none⟩ ∧
       versionLt ⟨1, 0, 0, none⟩ ⟨1, 0, 0, some "rc.1"⟩)) :=
  ⟨comparator_total_order_on_keys.1 _ _ _,
   comparator_total_order_on_keys.2 ⟨1, 0, 0, some "rc.1"⟩ ⟨1, 0, 0, none⟩
    (by decide)⟩

/-- C4 counterexample: `v1.0.0-beta.1` and `v1.0.0-beta-1` are distinct
`ParsedTag`s with identical sort keys, so neither compares below the
other — the claimed strict total order on ParsedVersion fails. -/
theorem comparator_not_strict_total_counterexample :
    (⟨1, 0, 0, some "beta.1"⟩ : ParsedTag) ≠ ⟨1, 0, 0, some "beta-1"⟩ ∧
    version_key ⟨1, 0, 0, some "beta.1"⟩ =
      version_key ⟨1, 0, 0, some "beta-1"⟩ ∧
    ¬ versionLt ⟨1, 0, 0, some "beta.1"⟩ ⟨1, 0, 0, some "beta-1"⟩ ∧
    ¬ versionLt ⟨1, 0, 0, some "beta-1"⟩ ⟨1, 0, 0, some "beta.1"⟩ := by
  decide

/-- C5: prerelease ordering.  For an equal numeric triple a stable
version orders after any prerelease; two prereleases compare by their
segment keys, obtained by splitting the identifier on `.` and `-`;
all-digit segments become numeric tokens (by integer value), other
segments become text tokens lowercased; numeric tokens sort before text
tokens; the first differing segment decides; a list that is a proper
prefix sorts first; and `1.2.0-beta.2 < 1.2.0-beta.10`,
`1.2.0-rc.1 < 1.2.0`. -/
theorem prerelease_segment_ordering :
    (∀ m n p : Nat, ∀ s : String,
      versionLt ⟨m, n, p, some s⟩ ⟨m, n, p, none⟩) ∧
    (∀ m n p : Nat, ∀ s t : String,
      versionLt ⟨m, n, p, some s⟩ ⟨m, n, p, some t⟩ ↔
        prerelease_key s < prerelease_key t) ∧
    (∀ s : String, prerelease_key s = (splitSeps s.data).map segTok) ∧
    (∀ part : List Char, isAllDigits part = true →
      segTok part = toLex (Sum.inl (natOfDigits part))) ∧
    (∀ part : List Char, isAllDigits part = false →
      segTok part = toLex (Sum.inr (asciiLower part))) ∧
    (∀ k : Nat, ∀ w : List Char, (toLex (Sum.inl k) : Tok) < toLex (Sum.inr w)) ∧
    (∀ k j : Nat, (toLex (Sum.inl k) : Tok) < toLex (Sum.inl j) ↔ k < j) ∧
    (∀ v w : List Char, (toLex (Sum.inr v) : Tok) < toLex (Sum.inr w) ↔ v < w) ∧
    (∀ a b : Tok, ∀ as bs : List Tok, a < b → (a :: as : List Tok) < b :: bs) ∧
    (∀ a : Tok, ∀ as bs : List Tok, ((a :: as : List Tok) < a :: bs ↔ as < bs)) ∧
    (∀ as : List Tok, ∀ b : Tok, ∀ bs : List Tok,
      (as : List Tok) < as ++ b :: bs) ∧
    versionLt ⟨1, 2, 0, some "beta.2"⟩ ⟨1, 2, 0, some "beta.10"⟩ ∧
    versionLt ⟨1, 2, 0, some "rc.1"⟩ ⟨1, 2, 0, none⟩ := by
  refine ⟨versionLt_pre_stable, versionLt_pre_pre, fun _ => rfl, ?_, ?_,
    fun k w => Sum.Lex.inl_lt_inr k w, fun k j => Sum.Lex.inl_lt_inl_iff,
    fun v w => Sum.Lex.inr_lt_inr_iff, tokList_head_lt, tokList_cons_lt_iff,
    tokList_prefix_lt, by decide, by decide⟩
  · intro part h
    unfold segTok
    rw [if_pos h]
  · intro part h
    unfold segTok
    rw [if_neg (by simp [h])]

/-- Witness for C5's hypothesis-bearing conjuncts at concrete segments. -/
theorem prerelease_segment_ordering_witness :
    (segTok ['2'] = toLex (Sum.inl (natOfDigits ['2']))) ∧
    (segTok ['r', 'c'] = toLex (Sum.inr (asciiLower ['r', 'c']))) ∧
    ((toLex (Sum.inl 1) :: [] : List Tok) < toLex (Sum.inr ['a']) :: []) :=
  ⟨prerelease_segment_ordering.2.2.2.1 ['2'] (by decide),
   prerelease_segment_ordering.2.2.2.2.1 ['r', 'c'] (by decide),
   prerelease_segment_ordering.2.2.2.2.2.2.2.2.1 _ _ [] []
    (prerelease_segment_ordering.2.2.2.2.2.1 1 ['a'])⟩

/-- C10: a stable and a prerelease `ParsedTag` never share a sort key
(their stability components differ), the greater-or-equal comparison
between them is therefore equivalent to the strict comparison, and in
particular the latest stable and latest prerelease candidates of a run
never tie exactly. -/
theorem stable_prerelease_never_tie :
    (∀ s p : ParsedTag, s.prerelease = none → p.prerelease ≠ none →
      version_key s ≠ version_key p ∧
      (version_key s ≥ version_key p ↔ version_key p < version_key s)) ∧
    (∀ rs : List Release, ∀ s p : Release,
      latest_stable rs = some s → latest_prerelease rs = some p →
      version_key s.parsed ≠ version_key p.parsed) := by
  have core : ∀ s p : ParsedTag, s.prerelease = none → p.prerelease ≠ none →
      version_key s ≠ version_key p ∧
      (version_key s ≥ version_key p ↔ version_key p < version_key s) := by
    intro s p hs hp
    obtain ⟨v, hv⟩ := Option.ne_none_iff_exists'.mp hp
    have hne : version_key s ≠ version_key p := by
      intro h
      unfold version_key at h
      simp [hs, hv, toLex_inj, Prod.mk.injEq] at h
    refine ⟨hne, ?_⟩
    rw [ge_iff_le, le_iff_lt_or_eq]
    constructor
    · rintro (h | h)
      · exact h
      · exact absurd h.symm hne
    · exact Or.inl
  refine ⟨core, fun rs s p hs hp => ?_⟩
  exact (core s.parsed p.parsed (latest_stable_is_stable hs)
    (latest_prerelease_is_pre hp)).1

/-- Witness for C10 at a concrete stable/prerelease pair and a concrete
run. -/
theorem stable_prerelease_never_tie_witness :
    (version_key ⟨2, 0, 0, none⟩ ≠ version_key ⟨2, 0, 0, some "beta.3"⟩ ∧
     (version_key (⟨2, 0, 0, none⟩ : ParsedTag) ≥
        version_key ⟨2, 0, 0, some "beta.3"⟩ ↔
      version_key (⟨2, 0, 0, some "beta.3"⟩ : ParsedTag) <
        version_key ⟨2, 0, 0, none⟩)) ∧
    version_key rel_v100.parsed ≠ version_key rel_v110b1.parsed :=
  ⟨stable_prerelease_never_tie.1 ⟨2, 0, 0, none⟩ ⟨2, 0, 0, some "beta.3"⟩
    rfl (by decide),
   stable_prerelease_never_tie.2 [rel_v100, rel_v110b1] rel_v100 rel_v110b1
    (by decide) (by decide)⟩

/-- The Sparkle conditional (`prerelease strictly newer`) and the
Homebrew conditional (`stable greater or equal`) pick the same beta
release. -/
theorem beta_pick_agree (s p : Release) :
    (if versionLt s.parsed p.parsed then p else s) =
      (if version_key s.parsed ≥ version_key p.parsed then s else p) := by
  by_cases h : versionLt s.parsed p.parsed
  · rw [if_pos h, if_neg (not_le.mpr h)]
  · rw [if_neg h, if_pos (not_lt.mp h)]

/-- C1 (amended): with both channel candidates present, both updaters
give the beta channel to the stable release exactly when its key is
greater or equal, otherwise to the prerelease; with only a stable
release, both select it; with only a prerelease, the Homebrew updater
selects it while the Sparkle updater aborts (see the counterexample).
The two scenario release sets resolve as the claim lists. -/
theorem beta_channel_selection :
    (∀ rs : List Release, ∀ s p : Release,
      latest_stable rs = some s → latest_prerelease rs = some p →
      sparkle_channels rs =
        ChannelOutcome.channels (some s)
          (if version_key s.parsed ≥ version_key p.parsed then s else p) ∧
      homebrew_channels rs =
        ChannelOutcome.channels (some s)
          (if version_key s.parsed ≥ version_key p.parsed then s else p)) ∧
    (∀ rs : List Release, ∀ s : Release,
      latest_stable rs = some s → latest_prerelease rs = none →
      sparkle_channels rs = ChannelOutcome.channels (some s) s ∧
      homebrew_channels rs = ChannelOutcome.channels (some s) s) ∧
    (∀ rs : List Release, ∀ p : Release,
      latest_stable rs = none → latest_prerelease rs = some p →
      homebrew_channels rs = ChannelOutcome.channels none p) ∧
    sparkle_channels [rel_v200, rel_v150b3] =
      ChannelOutcome.channels (some rel_v200) rel_v200 ∧
    homebrew_channels [rel_v200, rel_v150b3] =
      ChannelOutcome.channels (some rel_v200) rel_v200 ∧
    sparkle_channels [rel_v100, rel_v110b1] =
      ChannelOutcome.channels (some rel_v100) rel_v110b1 ∧
    homebrew_channels [rel_v100, rel_v110b1] =
      ChannelOutcome.channels (some rel_v100) rel_v110b1 := by
  refine ⟨?_, ?_, ?_, by decide, by decide, by decide, by decide⟩
  · intro rs s p hs hp
    unfold sparkle_channels homebrew_channels
    rw [hs, hp]
    refine ⟨?_, rfl⟩
    dsimp only
    rw [beta_pick_agree]
  · intro rs s hs hp
    unfold sparkle_channels homebrew_channels
    rw [hs, hp]
    exact ⟨rfl, rfl⟩
  · intro rs p hs hp
    unfold homebrew_channels
    rw [hs, hp]

/-- Witness for C1 at the `v2.0.0` / `v1.5.0-beta.3` scenario. -/
theorem beta_channel_selection_witness :
    sparkle_channels [rel_v200, rel_v150b3] =
      ChannelOutcome.channels (some rel_v200)
        (if version_key rel_v200.parsed ≥ version_key rel_v150b3.parsed then
          rel_v200 else rel_v150b3) ∧
    homebrew_channels [rel_v200, rel_v150b3] =
      ChannelOutcome.channels (some rel_v200)
        (if version_key rel_v200.parsed ≥ version_key rel_v150b3.parsed then
          rel_v200 else rel_v150b3) :=
  beta_channel_selection.1 [rel_v200, rel_v150b3] rel_v200 rel_v150b3
    (by decide) (by decide)

/-- C1 counterexample: with only the prerelease `v1.1.0-beta.1` in the
release set, the claim says the beta channel selects it; the Sparkle
updater instead raises and selects nothing. -/
theorem beta_channel_selection_counterexample :
    sparkle_channels [rel_v110b1] =
      ChannelOutcome.fatal
        "At least one stable release is required for stable appcast generation" := by
  decide

/-- C3 (amended): with no stable release but a prerelease present, the
Homebrew updater leaves the stable cask alone and still computes the
beta channel from the prerelease, but the Sparkle updater aborts the
whole run. -/
theorem no_stable_release_behavior :
    ∀ rs : List Release, ∀ p : Release,
      latest_stable rs = none → latest_prerelease rs = some p →
      homebrew_channels rs = ChannelOutcome.channels none p ∧
      sparkle_channels rs =
        ChannelOutcome.fatal
          "At least one stable release is required for stable appcast generation" := by
  intro rs p hs hp
  unfold sparkle_channels homebrew_channels
  rw [hs, hp]
  exact ⟨rfl, rfl⟩

/-- Witness for C3 at a concrete prerelease-only run. -/
theorem no_stable_release_behavior_witness :
    homebrew_channels [rel_v200rc1] = ChannelOutcome.channels none rel_v200rc1 ∧
    sparkle_channels [rel_v200rc1] =
      ChannelOutcome.fatal
        "At least one stable release is required for stable appcast generation" :=
  no_stable_release_behavior [rel_v200rc1] rel_v200rc1 (by decide) (by decide)

/-- C3 counterexample: with releases `{v2.0.0-rc.1 prerelease}` the claim
says the beta channel is still computed and emitted; the Sparkle updater
instead aborts the run with a `RuntimeError`. -/
theorem no_stable_release_counterexample :
    sparkle_channels [rel_v200rc1] =
      ChannelOutcome.fatal
        "At least one stable release is required for stable appcast generation" ∧
    homebrew_channels [rel_v200rc1] =
      ChannelOutcome.channels none rel_v200rc1 := by
  decide

/-- Writing a file and reading it back yields the written content. -/
theorem fsRead_fsWrite_self (fs : List (String × List Nat)) (n : String)
    (c : List Nat) : fsRead (fsWrite fs n c) n = some c := by
  induction fs with
  | nil => simp [fsWrite, fsRead]
  | cons hd tl ih =>
    obtain ⟨m, d⟩ := hd
    by_cases h : m = n
    · subst h
      simp [fsWrite, fsRead]
    · have hb : (m == n) = false := beq_eq_false_iff_ne.mpr h
      simp [fsWrite, fsRead, hb, ih]

/-- C2 (amended): the run cache of `sign_asset` is the cache directory
keyed by *asset name*: when a file of that name with exactly the asset's
size is already present, the download is skipped — even if the second
request carries a different download location — but the signing
computation runs again on every request; when the name is absent or the
size differs, the asset is downloaded (once per request) and then
signed. -/
theorem sign_asset_cache_behavior :
    (∀ fetch : String → List Nat, ∀ edSign : List Nat → String,
      ∀ asset : ReleaseAsset, ∀ st : SignState, ∀ bytes : List Nat,
      fsRead st.cacheFiles asset.name = some bytes →
      bytes.length = asset.size →
      sign_asset fetch edSign asset st =
        (edSign bytes, { st with signLog := st.signLog ++ [bytes] })) ∧
    (∀ fetch : String → List Nat, ∀ edSign : List Nat → String,
      ∀ asset : ReleaseAsset, ∀ st : SignState,
      fsRead st.cacheFiles asset.name = none →
      sign_asset fetch edSign asset st =
        (edSign (fetch asset.download_url),
         ⟨fsWrite st.cacheFiles asset.name (fetch asset.download_url),
          st.downloadLog ++ [asset.download_url],
          st.signLog ++ [fetch asset.download_url]⟩)) ∧
    (∀ fetch : String → List Nat, ∀ edSign : List Nat → String,
      ∀ asset : ReleaseAsset, ∀ st : SignState, ∀ bytes : List Nat,
      fsRead st.cacheFiles asset.name = some bytes →
      bytes.length ≠ asset.size →
      sign_asset fetch edSign asset st =
        (edSign (fetch asset.download_url),
         ⟨fsWrite st.cacheFiles asset.name (fetch asset.download_url),
          st.downloadLog ++ [asset.download_url],
          st.signLog ++ [fetch asset.download_url]⟩)) := by
  refine ⟨?_, ?_, ?_⟩
  · intro fetch edSign asset st bytes hr hl
    unfold sign_asset
    rw [hr]
    simp [hr, hl]
  · intro fetch edSign asset st hr
    unfold sign_asset
    rw [hr]
    simp [download_asset, fsRead_fsWrite_self]
  · intro fetch edSign asset st bytes hr hl
    unfold sign_asset
    rw [hr]
    simp [hl, download_asset, fsRead_fsWrite_self]

/-- Witness for C2 (amended) at a concrete cache hit. -/
theorem sign_asset_cache_behavior_witness :
    sign_asset (fun _ => [1]) (fun _ => "s") ⟨"n", 1, "u"⟩
      ⟨[("n", [1])], [], []⟩ =
      ((fun _ : List Nat => "s") [1],
       { (⟨[("n", [1])], [], []⟩ : SignState) with signLog := [] ++ [[1]] }) :=
  sign_asset_cache_behavior.1 (fun _ => [1]) (fun _ => "s") ⟨"n", 1, "u"⟩
    ⟨[("n", [1])], [], []⟩ [1] (by decide) (by decide)

/-- C2 counterexample: signing the same asset (same download location)
twice in one run downloads once but runs the signing computation twice —
the sign log ends with two entries, refuting "the signing computation
exactly once".  Moreover a request for the same *name and size* under a
*different* download location also skips the download and signs the
previously cached bytes, refuting "keyed by the asset's download
location". -/
theorem sign_asset_counterexample :
    ((sign_asset (fun _ => [7, 7, 7]) (fun _ => "sig")
        ⟨"a.zip", 3, "https://x/1"⟩
        ((sign_asset (fun _ => [7, 7, 7]) (fun _ => "sig")
          ⟨"a.zip", 3, "https://x/1"⟩ ⟨[], [], []⟩).2)).2 =
      ⟨[("a.zip", [7, 7, 7])], ["https://x/1"], [[7, 7, 7], [7, 7, 7]]⟩) ∧
    ((sign_asset (fun _ => [9, 9, 9]) (fun _ => "sig")
        ⟨"a.zip", 3, "https://x/2"⟩
        ⟨[("a.zip", [7, 7, 7])], ["https://x/1"], [[7, 7, 7]]⟩).2 =
      ⟨[("a.zip", [7, 7, 7])], ["https://x/1"], [[7, 7, 7], [7, 7, 7]]⟩) := by
  decide

/-- C8 (amended): when the heading is present but the section strips to
empty, `extract_notes` does not fail and returns the placeholder line
`- Maintenance release.`; in general the returned notes text is never
empty. -/
theorem maintenance_placeholder :
    (∀ lines : List String, ∀ tag : String, ∀ i : Nat,
      find_index (fun l => pyStrip l == heading_of tag) lines = some i →
      section_text lines (i + 1) = "" →
      extract_notes lines tag = some "- Maintenance release.") ∧
    (∀ lines : List String, ∀ tag r : String,
      extract_notes lines tag = some r → r ≠ "") := by
  constructor
  · intro lines tag i hf hs
    unfold extract_notes
    rw [hf]
    simp [hs]
  · intro lines tag r h
    unfold extract_notes at h
    cases hf : find_index (fun l => pyStrip l == heading_of tag) lines with
    | none =>
      rw [hf] at h
      exact absurd h (by simp)
    | some i =>
      rw [hf] at h
      have h' := Option.some.inj h
      by_cases he : section_text lines (i + 1) = ""
      · rw [if_pos (by simp [he])] at h'
        rw [← h']
        decide
      · rw [if_neg (by simpa using he)] at h'
        rw [← h']
        exact he

/-- Witness for C8 at a heading-only document. -/
theorem maintenance_placeholder_witness :
    extract_notes ["## [v1.0.0]", "", "   "] "v1.0.0" =
      some "- Maintenance release." :=
  maintenance_placeholder.1 ["## [v1.0.0]", "", "   "] "v1.0.0" 0
    (by decide) (by decide)

/-- C8 counterexample: the placeholder actually returned is
`- Maintenance release.`, not the claimed literal `Maintenance release.`. -/
theorem maintenance_placeholder_counterexample :
    extract_notes ["## [v1.0.0]"] "v1.0.0" = some "- Maintenance release." ∧
    some "- Maintenance release." ≠ some "Maintenance release." := by
  decide

/-- C9: decoded key bytes of length 32 are accepted as the seed, length
64 is accepted using only the first 32 bytes, any other decoded length
raises; an absent or blank secret yields no key; with no key configured
the run proceeds without signing unless signatures are required, in
which case the gate (which runs on configuration only, before any
release fetch) raises. -/
theorem signing_key_policy :
    (∀ b64decode : String → List Nat,
      load_signing_key none b64decode = Except.ok none) ∧
    (∀ secret : String, ∀ b64decode : String → List Nat,
      pyStrip secret = "" →
      load_signing_key (some secret) b64decode = Except.ok none) ∧
    (∀ secret : String, ∀ b64decode : String → List Nat,
      pyStrip secret ≠ "" → (b64decode (pyStrip secret)).length = 32 →
      load_signing_key (some secret) b64decode =
        Except.ok (some (b64decode (pyStrip secret)))) ∧
    (∀ secret : String, ∀ b64decode : String → List Nat,
      pyStrip secret ≠ "" → (b64decode (pyStrip secret)).length = 64 →
      load_signing_key (some secret) b64decode =
        Except.ok (some ((b64decode (pyStrip secret)).take 32))) ∧
    (∀ secret : String, ∀ b64decode : String → List Nat,
      pyStrip secret ≠ "" → (b64decode (pyStrip secret)).length ≠ 32 →
      (b64decode (pyStrip secret)).length ≠ 64 →
      load_signing_key (some secret) b64decode =
        Except.error
          "Unsupported Sparkle private key format. Expected base64-encoded 32-byte seed.") ∧
    (∀ signing_secret : Option String, ∀ b64decode : String → List Nat,
      load_signing_key signing_secret b64decode = Except.ok none →
      signing_gate signing_secret b64decode true =
        Except.error
          "Missing Sparkle private key. Set SPARKLE_PRIVATE_ED_KEY or --sparkle-private-key." ∧
      signing_gate signing_secret b64decode false = Except.ok none) ∧
    (∀ signing_secret : Option String, ∀ b64decode : String → List Nat,
      ∀ key : List Nat, ∀ require_signatures : Bool,
      load_signing_key signing_secret b64decode = Except.ok (some key) →
      signing_gate signing_secret b64decode require_signatures =
        Except.ok (some key)) := by
  refine ⟨fun _ => rfl, ?_, ?_, ?_, ?_, ?_, ?_⟩
  · intro secret dec h
    unfold load_signing_key
    dsimp only
    rw [if_pos h]
  · intro secret dec h h32
    unfold load_signing_key
    dsimp only
    rw [if_neg h, if_pos h32]
  · intro secret dec h h64
    unfold load_signing_key
    dsimp only
    rw [if_neg h]
    have h32 : (dec (pyStrip secret)).length ≠ 32 := by
      rw [h64]
      decide
    rw [if_neg h32, if_pos h64]
  · intro secret dec h h32 h64
    unfold load_signing_key
    dsimp only
    rw [if_neg h, if_neg h32, if_neg h64]
  · intro signing_secret dec h
    unfold signing_gate
    rw [h]
    exact ⟨rfl, rfl⟩
  · intro signing_secret dec key req h
    unfold signing_gate
    rw [h]

/-- Witness for C9 at concrete secrets and decode oracles. -/
theorem signing_key_policy_witness :
    (load_signing_key (some "ab") (fun _ => List.replicate 32 0) =
      Except.ok (some ((fun _ : String => List.replicate 32 0) (pyStrip "ab")))) ∧
    (load_signing_key (some "ab") (fun _ => List.replicate 64 5) =
      Except.ok (some (((fun _ : String => List.replicate 64 5)
        (pyStrip "ab")).take 32))) ∧
    (load_signing_key (some "ab") (fun _ => List.replicate 10 0) =
      Except.error
        "Unsupported Sparkle private key format. Expected base64-encoded 32-byte seed.") ∧
    (signing_gate none (fun _ => []) true =
      Except.error
        "Missing Sparkle private key. Set SPARKLE_PRIVATE_ED_KEY or --sparkle-private-key." ∧
     signing_gate none (fun _ => []) false = Except.ok none) :=
  ⟨signing_key_policy.2.2.1 "ab" (fun _ => List.replicate 32 0)
    (by decide) (by decide),
   signing_key_policy.2.2.2.1 "ab" (fun _ => List.replicate 64 5)
    (by decide) (by decide),
   signing_key_policy.2.2.2.2.1 "ab" (fun _ => List.replicate 10 0)
    (by decide) (by decide) (by decide),
   signing_key_policy.2.2.2.2.2.1 none (fun _ => []) rfl⟩

/-- `find_index` finds nothing exactly when no line satisfies the
predicate. -/
theorem find_index_eq_none_iff (p : String → Bool) (l : List String) :
    find_index p l = none ↔ l.all (fun x => !(p x)) = true := by
  induction l with
  | nil => simp [find_index]
  | cons x xs ih =>
    by_cases h : p x
    · simp [find_index, h]
    · simp [find_index, h, Option.map_eq_none', ih]

/-- Dropping past a found index is dropping the non-matching prefix and
the match itself. -/
theorem find_index_drop (p : String → Bool) :
    ∀ (l : List String) (i : Nat), find_index p l = some i →
      l.drop (i + 1) = (l.dropWhile (fun x => !(p x))).tail := by
  intro l
  induction l with
  | nil => intro i h; simp [find_index] at h
  | cons x xs ih =>
    intro i h
    unfold find_index at h
    by_cases hp : p x
    · rw [if_pos hp] at h
      rw [← Option.some.inj h]
      simp [List.dropWhile_cons, hp]
    · rw [if_neg hp] at h
      rcases Option.map_eq_some'.mp h with ⟨j, hj, hji⟩
      rw [← hji]
      simp only [List.dropWhile_cons, hp, List.drop_succ_cons]
      simpa using ih j hj

/-- Taking up to a found index is taking the non-matching prefix. -/
theorem take_find_index (p : String → Bool) :
    ∀ (l : List String) (k : Nat), find_index p l = some k →
      l.take k = l.takeWhile (fun x => !(p x)) := by
  intro l
  induction l with
  | nil => intro k h; simp [find_index] at h
  | cons x xs ih =>
    intro k h
    unfold find_index at h
    by_cases hp : p x
    · rw [if_pos hp] at h
      rw [← Option.some.inj h]
      simp [List.takeWhile_cons, hp]
    · rw [if_neg hp] at h
      rcases Option.map_eq_some'.mp h with ⟨j, hj, hji⟩
      rw [← hji]
      simp only [List.take_succ_cons, List.takeWhile_cons, hp]
      simp [ih j hj]

/-- If nothing matches, the non-matching prefix is everything. -/
theorem takeWhile_of_find_index_none (p : String → Bool) :
    ∀ l : List String, find_index p l = none →
      l.takeWhile (fun x => !(p x)) = l := by
  intro l
  induction l with
  | nil => intro h; rfl
  | cons x xs ih =>
    intro h
    unfold find_index at h
    by_cases hp : p x
    · rw [if_pos hp] at h
      exact absurd h (by simp)
    · rw [if_neg hp] at h
      simp only [List.takeWhile_cons, hp]
      simp [ih (Option.map_eq_none'.mp h)]

/-- The slice `lines[start:end]` taken by `section_text` is the prefix of
`lines[start:]` before the next `## [` heading. -/
theorem section_text_eq (lines : List String) (start : Nat) :
    section_text lines start =
      String.mk (pyStripChars (joinNL
        ((lines.drop start).takeWhile (fun l => !(py_startswith l "## ["))))) := by
  unfold section_text
  cases h : find_index (fun l => py_startswith l "## [") (lines.drop start) with
  | none =>
    dsimp only
    rw [show lines.length - start = (lines.drop start).length from
      (List.length_drop start lines).symm]
    rw [List.take_length, takeWhile_of_find_index_none _ _ h]
  | some k =>
    dsimp only
    rw [Nat.add_sub_cancel_left, take_find_index _ _ _ h]

/-- C7 (amended): `extract_notes` locates the first line stripping to
`## [<tag>]` (fatal when absent), takes the lines strictly between it
and the next line beginning with `## [` (or the end), joins them with
newlines and strips surrounding whitespace — which removes leading and
trailing blank lines and also the whitespace surrounding the first and
last kept lines — substituting the placeholder when nothing remains; on
the example document, `v1.0.0` yields `- A\n- B` and `v0.9.0` yields
`- C`. -/
theorem changelog_extraction :
    (∀ lines : List String, ∀ tag : String,
      extract_notes lines tag = notes_spec lines tag) ∧
    extract_notes exampleChangelog "v1.0.0" = some "- A\n- B" ∧
    extract_notes exampleChangelog "v0.9.0" = some "- C" := by
  refine ⟨?_, by decide, by decide⟩
  intro lines tag
  unfold extract_notes notes_spec
  cases h : find_index (fun l => pyStrip l == heading_of tag) lines with
  | none =>
    rw [if_pos ((find_index_eq_none_iff _ _).mp h)]
  | some i =>
    have hne : ¬ (lines.all (fun l => !(pyStrip l == heading_of tag)) = true) := by
      intro hall
      rw [(find_index_eq_none_iff _ _).mpr hall] at h
      exact absurd h (by simp)
    rw [if_neg hne]
    dsimp only
    rw [section_text_eq, find_index_drop _ _ _ h]

/-- Witness for C7 at a concrete document. -/
theorem changelog_extraction_witness :
    extract_notes ["## [v9.9.9]", "hello"] "v9.9.9" =
      notes_spec ["## [v9.9.9]", "hello"] "v9.9.9" :=
  changelog_extraction.1 ["## [v9.9.9]", "hello"] "v9.9.9"

/-- C7 counterexample: for the document `## [v1.0.0]` / ` - A ` the
claim's reading (trim only blank lines) keeps ` - A ` intact, but the
code's `"\n".join(...).strip()` also strips the spaces around the single
content line and returns `- A`. -/
theorem changelog_trim_counterexample :
    extract_notes ["## [v1.0.0]", " - A "] "v1.0.0" = some "- A" ∧
    notes_claim_C7 ["## [v1.0.0]", " - A "] "v1.0.0" = some " - A " ∧
    ("- A" : String) ≠ " - A " := by
  decide

/-- Maximal munch over a block that satisfies the predicate, stopped by a
failing character. -/
theorem takeWhile_append_all (p : Char → Bool) :
    ∀ (a : List Char) (x : Char) (r : List Char),
      (∀ c ∈ a, p c = true) → p x = false →
      (a ++ x :: r).takeWhile p = a ∧ (a ++ x :: r).dropWhile p = x :: r := by
  intro a
  induction a with
  | nil =>
    intro x r _ hx
    simp [List.takeWhile_cons, List.dropWhile_cons, hx]
  | cons c cs ih =>
    intro x r hall hx
    have hc : p c = true := hall c (List.mem_cons_self _ _)
    obtain ⟨ht, hd⟩ := ih x r (fun d hd => hall d (List.mem_cons_of_mem _ hd)) hx
    simp [List.takeWhile_cons, List.dropWhile_cons, hc, ht, hd]

/-- Maximal munch over a block that satisfies the predicate, reaching the
end of the input. -/
theorem takeWhile_all_self (p : Char → Bool) :
    ∀ a : List Char, (∀ c ∈ a, p c = true) →
      a.takeWhile p = a ∧ a.dropWhile p = [] := by
  intro a
  induction a with
  | nil => intro _; exact ⟨rfl, rfl⟩
  | cons c cs ih =>
    intro hall
    have hc : p c = true := hall c (List.mem_cons_self _ _)
    obtain ⟨ht, hd⟩ := ih (fun d hd => hall d (List.mem_cons_of_mem _ hd))
    simp [List.takeWhile_cons, List.dropWhile_cons, hc, ht, hd]

/-- The first character surviving `dropWhile` fails the predicate. -/
theorem dropWhile_head_false (p : Char → Bool) :
    ∀ (l : List Char) (x : Char) (r : List Char),
      l.dropWhile p = x :: r → p x = false := by
  intro l
  induction l with
  | nil => intro x r h; exact absurd h (by simp)
  | cons c cs ih =>
    intro x r h
    by_cases hc : p c
    · rw [List.dropWhile_cons, if_pos hc] at h
      exact ih x r h
    · rw [List.dropWhile_cons, if_neg hc] at h
      injection h with h1 h2
      rw [← h1]
      exact Bool.eq_false_iff.mpr hc

/-- Evaluation of `parse_tag` on a stable-form tag, with or without the
trailing newline tolerated by `$`. -/
theorem parse_tag_stable_eval (digit : Char → Bool) (digitVal : Char → Nat)
    (hdot : digit '.' = false) (hnl : digit '\n' = false)
    (s : String) (a b c ext : List Char)
    (hdata : s.data = 'v' :: (a ++ '.' :: (b ++ '.' :: (c ++ ext))))
    (ha1 : a ≠ []) (ha2 : ∀ ch ∈ a, digit ch = true)
    (hb1 : b ≠ []) (hb2 : ∀ ch ∈ b, digit ch = true)
    (hc1 : c ≠ []) (hc2 : ∀ ch ∈ c, digit ch = true)
    (hext : ext = [] ∨ ext = ['\n']) :
    parse_tag digit digitVal s =
      some ⟨natOfVal digitVal a, natOfVal digitVal b,
        natOfVal digitVal c, none⟩ := by
  obtain ⟨ht1, hd1⟩ :=
    takeWhile_append_all digit a '.' (b ++ '.' :: (c ++ ext)) ha2 hdot
  obtain ⟨ht2, hd2⟩ :=
    takeWhile_append_all digit b '.' (c ++ ext) hb2 hdot
  unfold parse_tag
  rw [hdata]
  dsimp only
  rw [if_pos (show ('v' : Char) = 'v' from rfl), hd1]
  dsimp only
  rw [if_pos (show ('.' : Char) = '.' from rfl), hd2]
  dsimp only
  rw [if_pos (show ('.' : Char) = '.' from rfl), ht1, ht2]
  rcases hext with rfl | rfl
  · obtain ⟨ht3, hd3⟩ := takeWhile_all_self digit c hc2
    rw [List.append_nil, ht3,
      if_neg (by simp [List.isEmpty_iff, ha1, hb1, hc1]), hd3]
  · obtain ⟨ht3, hd3⟩ :=
      takeWhile_append_all digit c '\n' [] hc2 hnl
    rw [ht3, if_neg (by simp [List.isEmpty_iff, ha1, hb1, hc1]), hd3]
    dsimp only
    rw [if_pos ⟨rfl, rfl⟩]

/-- Evaluation of `parse_tag` on a prerelease-form tag, with or without
the trailing newline tolerated by `$`. -/
theorem parse_tag_pre_eval (digit : Char → Bool) (digitVal : Char → Nat)
    (hdot : digit '.' = false) (hdash : digit '-' = false)
    (s : String) (a b c ident ext : List Char)
    (hdata : s.data =
      'v' :: (a ++ '.' :: (b ++ '.' :: (c ++ '-' :: (ident ++ ext)))))
    (ha1 : a ≠ []) (ha2 : ∀ ch ∈ a, digit ch = true)
    (hb1 : b ≠ []) (hb2 : ∀ ch ∈ b, digit ch = true)
    (hc1 : c ≠ []) (hc2 : ∀ ch ∈ c, digit ch = true)
    (hi1 : ident ≠ []) (hi2 : ∀ ch ∈ ident, isIdentChar ch = true)
    (hext : ext = [] ∨ ext = ['\n']) :
    parse_tag digit digitVal s =
      some ⟨natOfVal digitVal a, natOfVal digitVal b, natOfVal digitVal c,
        some (String.mk ident)⟩ := by
  obtain ⟨ht1, hd1⟩ := takeWhile_append_all digit a '.'
    (b ++ '.' :: (c ++ '-' :: (ident ++ ext))) ha2 hdot
  obtain ⟨ht2, hd2⟩ := takeWhile_append_all digit b '.'
    (c ++ '-' :: (ident ++ ext)) hb2 hdot
  obtain ⟨ht3, hd3⟩ := takeWhile_append_all digit c '-'
    (ident ++ ext) hc2 hdash
  unfold parse_tag
  rw [hdata]
  dsimp only
  rw [if_pos (show ('v' : Char) = 'v' from rfl), hd1]
  dsimp only
  rw [if_pos (show ('.' : Char) = '.' from rfl), hd2]
  dsimp only
  rw [if_pos (show ('.' : Char) = '.' from rfl), ht1, ht2, ht3,
    if_neg (by simp [List.isEmpty_iff, ha1, hb1, hc1]), hd3]
  dsimp only
  rw [if_neg (fun hh => absurd hh.1 (by decide)),
    if_pos (show ('-' : Char) = '-' from rfl)]
  rcases hext with rfl | rfl
  · obtain ⟨hti, hdi⟩ := takeWhile_all_self isIdentChar ident hi2
    rw [List.append_nil, hti, hdi,
      if_neg (by simp [List.isEmpty_iff, hi1]), if_pos (Or.inl rfl)]
  · obtain ⟨hti, hdi⟩ :=
      takeWhile_append_all isIdentChar ident '\n' [] hi2 (by decide)
    rw [hti, hdi, if_neg (by simp [List.isEmpty_iff, hi1]),
      if_pos (Or.inr rfl)]

/-- Every character of a stable-form tag is `v`, `.`, or a digit. -/
theorem stableForm_chars {digit : Char → Bool} {l : List Char}
    (h : IsStableForm digit l) :
    ∀ ch ∈ l, ch = 'v' ∨ ch = '.' ∨ digit ch = true := by
  obtain ⟨a, b, c, ⟨-, ha⟩, ⟨-, hb⟩, ⟨-, hc⟩, rfl⟩ := h
  intro ch hch
  simp only [List.mem_cons, List.mem_append] at hch
  rcases hch with rfl | hch | rfl | hch | rfl | hch
  · exact Or.inl rfl
  · exact Or.inr (Or.inr (ha ch hch))
  · exact Or.inr (Or.inl rfl)
  · exact Or.inr (Or.inr (hb ch hch))
  · exact Or.inr (Or.inl rfl)
  · exact Or.inr (Or.inr (hc ch hch))

/-- Every character of a prerelease-form tag is `v`, `.`, `-`, a digit,
or an identifier character. -/
theorem preForm_chars {digit : Char → Bool} {l : List Char}
    (h : IsPrereleaseForm digit l) :
    ∀ ch ∈ l, ch = 'v' ∨ ch = '.' ∨ ch = '-' ∨ digit ch = true ∨
      isIdentChar ch = true := by
  obtain ⟨a, b, c, ident, ⟨-, ha⟩, ⟨-, hb⟩, ⟨-, hc⟩, -, hid, rfl⟩ := h
  intro ch hch
  simp only [List.mem_cons, List.mem_append] at hch
  rcases hch with rfl | hch | rfl | hch | rfl | hch | rfl | hch
  · exact Or.inl rfl
  · exact Or.inr (Or.inr (Or.inr (Or.inl (ha ch hch))))
  · exact Or.inr (Or.inl rfl)
  · exact Or.inr (Or.inr (Or.inr (Or.inl (hb ch hch))))
  · exact Or.inr (Or.inl rfl)
  · exact Or.inr (Or.inr (Or.inr (Or.inl (hc ch hch))))
  · exact Or.inr (Or.inr (Or.inl rfl))
  · exact Or.inr (Or.inr (Or.inr (Or.inr (hid ch hch))))

/-- C6 (amended): for any digit class and digit-value function as used
by the regex escape `\d` and `int(...)` — the only facts needed are that
the class contains none of `.`, `-`, and the newline, which hold of the
full Unicode decimal-digit category — `parse_tag` accepts exactly the
strings that are a stable-form tag or a prerelease-form tag over that
digit class, optionally followed by one trailing newline (the Python `$`
anchor); everything else is rejected by returning no value. -/
theorem tag_parser_acceptance :
    ∀ digit : Char → Bool, ∀ digitVal : Char → Nat,
      digit '.' = false → digit '-' = false → digit '\n' = false →
      ∀ s : String, (parse_tag digit digitVal s).isSome = true ↔
        ∃ core ext : List Char, s.data = core ++ ext ∧
          (ext = [] ∨ ext = ['\n']) ∧
          (IsStableForm digit core ∨ IsPrereleaseForm digit core) := by
  intro digit digitVal hdot hdash0 hnewline s
  constructor
  · intro h
    unfold parse_tag at h
    split at h
    · exact absurd h (by simp)
    next c0 cs heq =>
      by_cases hv : c0 = 'v'
      case neg => rw [if_neg hv] at h; exact absurd h (by simp)
      subst hv
      rw [if_pos rfl] at h
      dsimp only at h
      split at h
      · exact absurd h (by simp)
      next sep1 cs2 heq1 =>
        by_cases h1 : sep1 = '.'
        case neg => rw [if_neg h1] at h; exact absurd h (by simp)
        subst h1
        rw [if_pos rfl] at h
        split at h
        · exact absurd h (by simp)
        next sep2 cs3 heq2 =>
          by_cases h2 : sep2 = '.'
          case neg => rw [if_neg h2] at h; exact absurd h (by simp)
          subst h2
          rw [if_pos rfl] at h
          split at h
          · exact absurd h (by simp)
          next hguard =>
            simp only [Bool.or_eq_true, List.isEmpty_iff, not_or] at hguard
            obtain ⟨⟨hne1, hne2⟩, hne3⟩ := hguard
            have hcs : cs = cs.takeWhile digit ++ '.' :: cs2 := by
              rw [← heq1]
              exact (List.takeWhile_append_dropWhile _ _).symm
            have hcs2 : cs2 = cs2.takeWhile digit ++ '.' :: cs3 := by
              rw [← heq2]
              exact (List.takeWhile_append_dropWhile _ _).symm
            have hda : ∀ ch ∈ cs.takeWhile digit, digit ch = true :=
              fun ch hch => List.mem_takeWhile_imp hch
            have hdb : ∀ ch ∈ cs2.takeWhile digit, digit ch = true :=
              fun ch hch => List.mem_takeWhile_imp hch
            have hdc : ∀ ch ∈ cs3.takeWhile digit, digit ch = true :=
              fun ch hch => List.mem_takeWhile_imp hch
            split at h
            next heq3 =>
              have hcs3 : cs3 = cs3.takeWhile digit := by
                conv_lhs => rw [← List.takeWhile_append_dropWhile digit cs3]
                rw [heq3, List.append_nil]
              refine ⟨s.data, [], (List.append_nil _).symm, Or.inl rfl,
                Or.inl ⟨cs.takeWhile digit, cs2.takeWhile digit,
                  cs3.takeWhile digit,
                  ⟨hne1, hda⟩, ⟨hne2, hdb⟩, ⟨hne3, hdc⟩, ?_⟩⟩
              rw [heq]
              conv_lhs => rw [hcs, hcs2, hcs3]
            next e erest heq3 =>
              by_cases hnl : e = '\n' ∧ erest = []
              · obtain ⟨rfl, rfl⟩ := hnl
                have hcs3 : cs3 = cs3.takeWhile digit ++ ['\n'] := by
                  conv_lhs => rw [← List.takeWhile_append_dropWhile digit cs3]
                  rw [heq3]
                refine ⟨'v' :: (cs.takeWhile digit ++ '.' ::
                    (cs2.takeWhile digit ++ '.' ::
                      cs3.takeWhile digit)), ['\n'], ?_, Or.inr rfl,
                  Or.inl ⟨cs.takeWhile digit, cs2.takeWhile digit,
                    cs3.takeWhile digit,
                    ⟨hne1, hda⟩, ⟨hne2, hdb⟩, ⟨hne3, hdc⟩, rfl⟩⟩
                rw [heq]
                conv_lhs => rw [hcs, hcs2, hcs3]
                simp [List.append_assoc]
              · rw [if_neg hnl] at h
                by_cases hdash : e = '-'
                case neg => rw [if_neg hdash] at h; exact absurd h (by simp)
                subst hdash
                rw [if_pos rfl] at h
                split at h
                · exact absurd h (by simp)
                next hident =>
                  split at h
                  case isFalse => exact absurd h (by simp)
                  next hrest =>
                    rw [List.isEmpty_iff] at hident
                    have hcs3 : cs3 = cs3.takeWhile digit ++ '-' :: erest := by
                      conv_lhs =>
                        rw [← List.takeWhile_append_dropWhile digit cs3]
                      rw [heq3]
                    have herest : erest = erest.takeWhile isIdentChar ++
                        erest.dropWhile isIdentChar :=
                      (List.takeWhile_append_dropWhile _ _).symm
                    have hidc : ∀ ch ∈ erest.takeWhile isIdentChar,
                        isIdentChar ch = true :=
                      fun ch hch => List.mem_takeWhile_imp hch
                    refine ⟨'v' :: (cs.takeWhile digit ++ '.' ::
                        (cs2.takeWhile digit ++ '.' ::
                          (cs3.takeWhile digit ++ '-' ::
                            erest.takeWhile isIdentChar))),
                      erest.dropWhile isIdentChar, ?_, hrest,
                      Or.inr ⟨cs.takeWhile digit,
                        cs2.takeWhile digit, cs3.takeWhile digit,
                        erest.takeWhile isIdentChar,
                        ⟨hne1, hda⟩, ⟨hne2, hdb⟩, ⟨hne3, hdc⟩,
                        hident, hidc, rfl⟩⟩
                    rw [heq]
                    conv_lhs => rw [hcs, hcs2, hcs3, herest]
                    simp [List.append_assoc]
  · rintro ⟨core, ext, hdata, hext, hform | hform⟩
    · obtain ⟨a, b, c, ⟨ha1, ha2⟩, ⟨hb1, hb2⟩, ⟨hc1, hc2⟩, rfl⟩ := hform
      have hd : s.data = 'v' :: (a ++ '.' :: (b ++ '.' :: (c ++ ext))) := by
        rw [hdata]
        simp [List.append_assoc]
      rw [parse_tag_stable_eval digit digitVal hdot hnewline s a b c ext hd
        ha1 ha2 hb1 hb2 hc1 hc2 hext]
      rfl
    · obtain ⟨a, b, c, ident, ⟨ha1, ha2⟩, ⟨hb1, hb2⟩, ⟨hc1, hc2⟩,
        hi1, hi2, rfl⟩ := hform
      have hd : s.data =
          'v' :: (a ++ '.' :: (b ++ '.' :: (c ++ '-' :: (ident ++ ext)))) := by
        rw [hdata]
        simp [List.append_assoc]
      rw [parse_tag_pre_eval digit digitVal hdot hdash0 s a b c ident ext hd
        ha1 ha2 hb1 hb2 hc1 hc2 hi1 hi2 hext]
      rfl

/-- Witness for C6 at the ASCII digit class: `v1.2.3` is accepted, so it
decomposes into one of the two forms. -/
theorem tag_parser_acceptance_witness :
    ∃ core ext : List Char, "v1.2.3".data = core ++ ext ∧
      (ext = [] ∨ ext = ['\n']) ∧
      (IsStableForm Char.isDigit core ∨ IsPrereleaseForm Char.isDigit core) :=
  (tag_parser_acceptance Char.isDigit (fun c => c.toNat - 48)
    (by decide) (by decide) (by decide) "v1.2.3").mp (by decide)

/-- C6 counterexample: `v1.0.0` followed by a newline is accepted by
`parse_tag` (Python `$` matches before a terminal newline) although it
is neither of the two claimed forms — every character of those forms is
a `v`, a dot, a hyphen, a digit or an identifier character, which the
newline is not.  The input contains only ASCII characters and the
newline, on which the ASCII digit class coincides with the full Unicode
class of `\d`, so the instance below exercises exactly the program's
behavior. -/
theorem tag_parser_counterexample :
    parse_tag Char.isDigit (fun c => c.toNat - 48) "v1.0.0\n" =
      some ⟨1, 0, 0, none⟩ ∧
    ¬ IsStableForm Char.isDigit "v1.0.0\n".data ∧
    ¬ IsPrereleaseForm Char.isDigit "v1.0.0\n".data := by
  refine ⟨by decide, ?_, ?_⟩
  · intro h
    rcases stableForm_chars h '\n' (by decide) with h' | h' | h' <;>
      exact absurd h' (by decide)
  · intro h
    rcases preForm_chars h '\n' (by decide) with h' | h' | h' | h' | h' <;>
      exact absurd h' (by decide)

end Docktor
